import Mathlib

/-
  Verification development for the fastapi-filter library.

  We shallowly embed the Python sources (fastapi_filter/base/filter.py and the
  contrib backends for SQLAlchemy, MongoEngine, Tortoise and Beanie) in Lean.
  Python strings are modelled as lists of characters; Python values that flow
  through the pydantic validators are modelled by the inductive type `Val`;
  fallible Python code (raising ValueError / KeyError / unpacking errors)
  is modelled with `Except`.

  Where pydantic semantics matter they are embedded explicitly:
    * `model_dump(exclude_unset=..., exclude_defaults=..., exclude_none=...)`
      drops, respectively, fields that were not explicitly supplied, fields
      whose current value equals the declared default, and fields whose value
      is None.
    * several `mode="before"` field validators on one model run in REVERSE
      definition order (the one defined last runs first on the raw input);
      validators of a subclass run before those of the base class.  This is
      pydantic-v2 behaviour (each before-validator wraps the previously built
      schema, so the last wrapped one is outermost).
-/

set_option maxRecDepth 8192

/-- Python strings, modelled as lists of characters. -/
abbrev Str := List Char

/-- Python `str.strip()`: remove leading and trailing whitespace. -/
def pyStrip (s : Str) : Str :=
  ((s.dropWhile Char.isWhitespace).reverse.dropWhile Char.isWhitespace).reverse

/-- Python `value.split(",")` (single-character separator): splits at every
comma; the empty string yields `[""]`. -/
def splitComma : Str → List Str
  | [] => [[]]
  | c :: rest =>
    match splitComma rest with
    | [] => []
    | h :: t => if c = ',' then [] :: h :: t else (c :: h) :: t

/-- Python `",".join(tokens)`. -/
def joinComma : List Str → Str
  | [] => []
  | [t] => t
  | t :: rest => t ++ ',' :: joinComma rest

/-- `token.replace("-", "").replace("+", "")` from `validate_order_by`:
removes every `-` and `+` character. -/
def stripDirection (t : Str) : Str :=
  t.filter (fun c => !(c = '-' || c = '+'))

/-- Python `field_name.split("__")`: split at every non-overlapping
occurrence of `__`, scanning left to right. -/
def splitDunder : Str → List Str
  | [] => [[]]
  | [c] => [[c]]
  | c :: c2 :: rest =>
    if c = '_' ∧ c2 = '_' then
      [] :: splitDunder rest
    else
      match splitDunder (c2 :: rest) with
      | [] => []
      | h :: t => (c :: h) :: t

/-- Python substring test `pat in s`. -/
def containsSub (pat : Str) : Str → Bool
  | [] => List.isPrefixOf pat []
  | c :: rest => List.isPrefixOf pat (c :: rest) || containsSub pat rest

/-- Python `"__" in field_name`. -/
def containsDunder (s : Str) : Bool :=
  containsSub ['_', '_'] s

/-- Python `k.removeprefix(p)`: drop `p` from the front when it is there,
otherwise return the string unchanged. -/
def pyRemovePre (p s : Str) : Str :=
  if p.isPrefixOf s then s.drop p.length else s

/-- Lexicographic (code-point) comparison of Python strings, as used by
`sorted` on a collection of `str`. -/
def strLt : Str → Str → Bool
  | [], [] => false
  | [], _ :: _ => true
  | _ :: _, [] => false
  | a :: as, b :: bs => if a < b then true else if b < a then false else strLt as bs

/-- Insert into a sorted list (helper for `sortStrs`). -/
def insertStr (x : Str) : List Str → List Str
  | [] => [x]
  | h :: t => if strLt x h then x :: h :: t else h :: insertStr x t

/-- Python `sorted` on a collection of strings. -/
def sortStrs : List Str → List Str
  | [] => []
  | h :: t => insertStr h (sortStrs t)

/-- Primitive (non-list) Python values appearing inside list values. -/
inductive Prim where
  | none
  | bool (b : Bool)
  | int (n : Int)
  | str (s : Str)
  deriving DecidableEq

/-- Python values flowing through the validators: `None`, booleans,
integers, strings, and lists of primitives (in this library, list values
only ever hold primitives: comma-split strings or the elements of an
`in`/`not_in` argument). -/
inductive Val where
  | none
  | bool (b : Bool)
  | int (n : Int)
  | str (s : Str)
  | list (vs : List Prim)
  deriving DecidableEq

/-- Python truthiness test (`if not value`) on the embedded values. -/
def isFalsy : Val → Bool
  | .none => true
  | .bool b => !b
  | .int n => n = 0
  | .str s => s.isEmpty
  | .list vs => vs.isEmpty

namespace SA

/-- `Filter.split_str` from `contrib/sqlalchemy/filter.py` (the Tortoise
backend has the identical hook): a pre-validation hook that applies to the
ordering field and to fields suffixed `__in` / `__not_in`; a string value is
split on commas, the empty string becomes the empty list, and any
non-string value passes through unchanged. -/
def split_str (ordName fieldName : Str) (value : Val) : Val :=
  if fieldName = ordName
      || List.isSuffixOf "__in".data fieldName
      || List.isSuffixOf "__not_in".data fieldName then
    match value with
    | .str s => if s = [] then .list [] else .list ((splitComma s).map .str)
    | v => v
  else value

end SA

namespace Beanie

/-- `Filter.split_str` from `contrib/beanie/filter.py` (the MongoEngine
backend has the identical hook): same as the SQLAlchemy one but the list
operator suffixes are `__in` / `__nin`. -/
def split_str (ordName fieldName : Str) (value : Val) : Val :=
  if fieldName = ordName
      || List.isSuffixOf "__in".data fieldName
      || List.isSuffixOf "__nin".data fieldName then
    match value with
    | .str s => if s = [] then .list [] else .list ((splitComma s).map .str)
    | v => v
  else value

end Beanie

/-- Python `sep.join(tokens)` for an arbitrary separator (used for the
`", ".join(...)` in the duplicate-ordering error message). -/
def joinWith (sep : Str) : List Str → Str
  | [] => []
  | [t] => t
  | t :: rest => t ++ sep ++ joinWith sep rest

/-- One step of `field_name_usages[field_name].append(field_name_with_direction)`:
the usage map is a `defaultdict(list)` whose keys appear in first-occurrence
order. -/
def addUsage : List (Str × List Str) → Str → Str → List (Str × List Str)
  | [], base, tok => [(base, [tok])]
  | (k, toks) :: rest, base, tok =>
    if k = base then (k, toks ++ [tok]) :: rest
    else (k, toks) :: addUsage rest base tok

/-- The token loop of `validate_order_by`: strip direction markers from each
token, check `hasattr(cls.Constants.model, field_name)` (the target model is
embedded as its list of attribute names) and accumulate the usage map; an
unknown base name raises `ValueError` immediately. -/
def collectUsages (model : List Str) : List Str → List (Str × List Str) →
    Except Str (List (Str × List Str))
  | [], usages => .ok usages
  | tok :: rest, usages =>
    let base := stripDirection tok
    if model.contains base then
      collectUsages model rest (addUsage usages base tok)
    else
      .error (base ++ " is not a valid ordering field.".data)

/-- `field_name_usages[field_name]` on the finished usage map. -/
def lookupUsages (usages : List (Str × List Str)) (k : Str) : List Str :=
  match usages.find? (fun p => p.1 = k) with
  | some p => p.2
  | Option.none => []

/-- Iterate a Python value as the `for field_name_with_direction in value`
loops do: a list yields its (string) elements, a string yields its characters
as one-character strings, and non-iterable values raise `TypeError`; a
non-string list element makes the `.replace(...)`/`.strip()` call raise
`AttributeError`. -/
def iterTokens : Val → Except Str (List Str)
  | .list ps => ps.mapM (fun p => match p with
      | .str s => .ok s
      | _ => .error "AttributeError: token is not a string".data)
  | .str s => .ok (s.map (fun c => [c]))
  | _ => .error "TypeError: value is not iterable".data

/-- `BaseFilterModel.validate_order_by` (base/filter.py): a `mode="before"`
validator; for the ordering field, a falsy value normalises to `None`;
otherwise each token must name (after removing every `-`/`+` character) an
attribute of the target model, and base names must be pairwise distinct or a
`ValueError` is raised whose message lists, for every duplicated base name in
sorted order, all tokens (direction markers kept) that used it, in original
order of occurrence. -/
def validate_order_by (ordName : Str) (model : List Str) (fieldName : Str)
    (value : Val) : Except Str Val :=
  if fieldName ≠ ordName then .ok value
  else if isFalsy value then .ok .none
  else do
    let toks ← iterTokens value
    let usages ← collectUsages model toks []
    let dups := (usages.filter (fun p => 2 ≤ p.2.length)).map (fun p => p.1)
    if dups.isEmpty then .ok value
    else .error (
      "Field names can appear at most once for ".data ++ ordName ++
      ". The following was ambiguous: ".data ++
      joinWith ", ".data ((sortStrs dups).flatMap (fun base => lookupUsages usages base)) ++
      ".".data)

/-- `BaseFilterModel.strip_order_by_values` (base/filter.py): a
`mode="before"` validator; for the ordering field, a falsy value normalises
to `None`; otherwise each token is whitespace-stripped and tokens that
become empty are dropped. -/
def strip_order_by_values (ordName : Str) (fieldName : Str) (value : Val) :
    Except Str Val :=
  if fieldName ≠ ordName then .ok value
  else if isFalsy value then .ok .none
  else do
    let toks ← iterTokens value
    .ok (.list (((toks.map pyStrip).filter (fun t => t ≠ [])).map Prim.str))

/-- The composite validation an ordering value actually undergoes on a
SQLAlchemy-backend filter class.  Pydantic v2 runs `mode="before"` field
validators in reverse definition order, subclasses before base classes, so
the raw wire value passes through `split_str` (subclass) first, then
`validate_order_by`, and only then `strip_order_by_values` (both on the
base class, defined in that order, hence applied in the reverse one). -/
def sa_ordering_pipeline (ordName : Str) (model : List Str) (value : Val) :
    Except Str Val := do
  let v1 := SA.split_str ordName ordName value
  let v2 ← validate_order_by ordName model ordName v1
  strip_order_by_values ordName ordName v2

/-- A pydantic field of a filter instance: its current value, its declared
default, and whether it was explicitly supplied at construction
(`model_fields_set`). -/
structure Entry (α : Type) where
  value : α
  default : α
  isSet : Bool
  deriving DecidableEq

/-- A (flat) filter instance: declared fields in declaration order. -/
abbrev Fields := List (Str × Entry Val)

/-- `model_dump(exclude_unset=…, exclude_defaults=…, exclude_none=…)` on a
flat instance. -/
def model_dump (excludeUnset excludeDefaults excludeNone : Bool)
    (fs : Fields) : List (Str × Val) :=
  fs.filterMap fun p =>
    if excludeUnset && !p.2.isSet then Option.none
    else if excludeDefaults && p.2.value = p.2.default then Option.none
    else if excludeNone && p.2.value = Val.none then Option.none
    else some (p.1, p.2.value)

/-- `BaseFilterModel.filtering_fields`: `model_dump(exclude_none=True,
exclude_unset=True)` with the ordering field popped. -/
def filtering_fields (ordName : Str) (fs : Fields) : List (Str × Val) :=
  (model_dump true false true fs).filter (fun p => p.1 ≠ ordName)

/-- `BaseFilterModel.ordering_values`: `getattr(self, ordering_field_name)`,
which raises `AttributeError` with a dedicated message when the filter class
does not declare the ordering field at all. -/
def ordering_values (ordName : Str) (fs : Fields) : Except Str Val :=
  match fs.find? (fun p => p.1 = ordName) with
  | some p => .ok p.2.value
  | Option.none => .error ("Ordering field ".data ++ ordName ++
      " is not defined. Make sure to add it to your filter class.".data)

/-- Look a key up in submitted keyword data. -/
def lookupData (data : List (Str × Val)) (n : Str) : Option Val :=
  (data.find? (fun p => p.1 = n)).map (fun p => p.2)

/-- Construct an instance from declared fields (name, default) and submitted
data; a field found in the data is marked explicitly set, the rest keep
their defaults.  Keys not declared on the schema are ignored here (the
pydantic default `extra="ignore"`, as on the generated wire model). -/
def mkInstance (schema : List (Str × Val)) (data : List (Str × Val)) :
    Fields :=
  schema.map fun p =>
    (p.1, ⟨(lookupData data p.1).getD p.2, p.2, (lookupData data p.1).isSome⟩)

/-- Construct an instance of a `BaseFilterModel` subclass
(`extra="forbid"`): any submitted key not declared on the schema fails
validation. -/
def validateModel (schema : List (Str × Val)) (data : List (Str × Val)) :
    Except Str Fields :=
  if data.all (fun p => schema.any (fun s => s.1 = p.1)) then
    .ok (mkInstance schema data)
  else .error "extra fields are not permitted".data

/-- `FilterWrapper.__new__` from `FilterDepends` for an un-prefixed filter:
build the generated wire instance from the submitted data, dump it with
`exclude_unset=True, exclude_defaults=True`, and re-validate the dump
against the original filter class. -/
def filterWrapper (schema : List (Str × Val)) (data : List (Str × Val)) :
    Except Str Fields :=
  let inst := mkInstance schema data
  let dumped := model_dump true true false inst
  validateModel schema dumped

/-- The alias `with_prefix` generates for a field:
`alias_generator=lambda string: f"{prefix}__{string}"`. -/
def aliasOf (pfx n : Str) : Str := pfx ++ "__".data ++ n

/-- Construct the generated wire instance of a `with_prefix` filter: every
field is populated from the submitted data by its generated alias
`<prefix>__<name>`. -/
def mkPrefixedInstance (pfx : Str) (schema : List (Str × Val))
    (data : List (Str × Val)) : Fields :=
  schema.map fun p =>
    (p.1, ⟨(lookupData data (aliasOf pfx p.1)).getD p.2, p.2,
           (lookupData data (aliasOf pfx p.1)).isSome⟩)

/-- `FilterWrapper.__new__` for a `with_prefix` filter: build the wire
instance, dump it (`exclude_unset=True, exclude_defaults=True`, by alias or
by field name according to `by_alias`), strip `<prefix>__` from every key
with `str.removeprefix`, and validate the stripped dict against the
original (un-prefixed) filter class. -/
def prefixedFilterWrapper (byAlias : Bool) (pfx : Str)
    (schema : List (Str × Val)) (data : List (Str × Val)) :
    Except Str Fields :=
  let inst := mkPrefixedInstance pfx schema data
  let dumped := model_dump true true false inst
  let keyed := if byAlias then dumped.map (fun p => (aliasOf pfx p.1, p.2))
               else dumped
  let stripped := keyed.map (fun p => (pyRemovePre (pfx ++ "__".data) p.1, p.2))
  validateModel schema stripped

/-- Remove every non-overlapping occurrence of `pat` from `s`, scanning
left to right: Python `s.replace(pat, "")`. -/
def removeAll (pat : Str) (s : Str) : Str :=
  match s with
  | [] => []
  | c :: rest =>
    if h : pat ≠ [] ∧ pat.isPrefixOf (c :: rest) then
      removeAll pat ((c :: rest).drop pat.length)
    else
      c :: removeAll pat rest
termination_by s.length
decreasing_by
  · simp only [List.length_drop, List.length_cons]
    have hp : 1 ≤ pat.length := by
      cases hpat : pat with
      | nil => exact absurd hpat h.1
      | cons x xs => simp
    omega
  · simp

/-- `_backward_compatible_value_for_like_and_ilike`
(contrib/sqlalchemy/filter.py): wrap the value in `%…%` (with a
deprecation warning, not modelled) unless it already contains `%`. -/
def backwardCompatibleLike (s : Str) : Str :=
  if containsSub ['%'] s then s else '%' :: (s ++ ['%'])

namespace SA

/-- The `_orm_operator_transformer` table of contrib/sqlalchemy/filter.py:
maps an operator token and the field value to the SQLAlchemy column method
name and the transformed value; a missing operator is a `KeyError`. -/
def orm_operator_transformer (op : Str) (value : Val) :
    Except Str (Str × Val) :=
  if op = "neq".data then .ok ("__ne__".data, value)
  else if op = "gt".data then .ok ("__gt__".data, value)
  else if op = "gte".data then .ok ("__ge__".data, value)
  else if op = "in".data then .ok ("in_".data, value)
  else if op = "isnull".data then
    .ok (if value = .bool true then ("is_".data, Val.none)
         else ("is_not".data, Val.none))
  else if op = "lt".data then .ok ("__lt__".data, value)
  else if op = "lte".data then .ok ("__le__".data, value)
  else if op = "like".data then
    match value with
    | .str s => .ok ("like".data, .str (backwardCompatibleLike s))
    | _ => .error "TypeError: like expects a string".data
  else if op = "ilike".data then
    match value with
    | .str s => .ok ("ilike".data, .str (backwardCompatibleLike s))
    | _ => .error "TypeError: ilike expects a string".data
  else if op = "not".data then .ok ("is_not".data, value)
  else if op = "not_in".data then .ok ("not_in".data, value)
  else .error ("KeyError: ".data ++ op)

end SA

namespace Tortoise

/-- The `_orm_operator_transformer` table of contrib/tortoise/filter.py:
maps an operator token and the field value to the Tortoise filter suffix
and the transformed value.  Note that `isnull` produces `("__isnull",
True)` whatever the submitted boolean is — the lambda discards its
argument. -/
def orm_operator_transformer (op : Str) (value : Val) :
    Except Str (Str × Val) :=
  if op = "neq".data then .ok ("__not".data, value)
  else if op = "gt".data then .ok ("__gt".data, value)
  else if op = "gte".data then .ok ("__gte".data, value)
  else if op = "in".data then .ok ("__in".data, value)
  else if op = "isnull".data then .ok ("__isnull".data, Val.bool true)
  else if op = "lt".data then .ok ("__lt".data, value)
  else if op = "lte".data then .ok ("__lte".data, value)
  else if op = "like".data then .ok ("__contains".data, value)
  else if op = "ilike".data then .ok ("__icontains".data, value)
  else if op = "not".data then .ok ("__not".data, value)
  else if op = "not_in".data then .ok ("__not_in".data, value)
  else .error ("KeyError: ".data ++ op)

end Tortoise

namespace Beanie

/-- The `_odm_operator_transformer` table of contrib/beanie/filter.py:
maps an operator token and the field value to a Mongo criteria document
(`None` for the truthy `isnull` case). -/
def odm_operator_transformer (op : Str) (value : Val) :
    Except Str (Option (List (Str × Val))) :=
  if op = "neq".data then .ok (some [("$ne".data, value)])
  else if op = "gt".data then .ok (some [("$gt".data, value)])
  else if op = "gte".data then .ok (some [("$gte".data, value)])
  else if op = "in".data then .ok (some [("$in".data, value)])
  else if op = "isnull".data then
    .ok (if isFalsy value then some [("$ne".data, Val.none)] else Option.none)
  else if op = "lt".data then .ok (some [("$lt".data, value)])
  else if op = "lte".data then .ok (some [("$lte".data, value)])
  else if op = "not".data then .ok (some [("$ne".data, value)])
  else if op = "ne".data then .ok (some [("$ne".data, value)])
  else if op = "not_in".data then .ok (some [("$nin".data, value)])
  else if op = "nin".data then .ok (some [("$nin".data, value)])
  else if op = "like".data then
    match value with
    | .str s => .ok (some [("$regex".data, .str (".*".data ++ s ++ ".*".data))])
    | _ => .error "TypeError: like expects a string".data
  else if op = "ilike".data then
    match value with
    | .str s => .ok (some [("$regex".data, .str (".*".data ++ s ++ ".*".data)),
                           ("$options".data, .str "i".data)])
    | _ => .error "TypeError: ilike expects a string".data
  else if op = "exists".data then .ok (some [("$exists".data, value)])
  else .error ("KeyError: ".data ++ op)

/-- The scalar (`elif "__" in field_name` and following) branches of
`Filter._get_filter_conditions` in contrib/beanie/filter.py, producing the
criteria document appended for one non-nested filtering field.  The
two-target unpacking of `field_name.split("__")` fails unless the split
has exactly two parts. -/
def filter_condition (searchFieldName : Str)
    (searchModelFields : Option (List Str)) (fieldName : Str) (value : Val) :
    Except Str (List (Str × Option (List (Str × Val)))) :=
  if containsDunder fieldName then
    match splitDunder fieldName with
    | [stripped, op] => do
      let crit ← odm_operator_transformer op value
      .ok [(stripped, crit)]
    | _ => .error "ValueError: unpacking field_name.split failed".data
  else if fieldName = searchFieldName ∧ searchModelFields ≠ Option.none then
    match searchModelFields with
    | some sfs => do
      let crit ← odm_operator_transformer "ilike".data value
      .ok (sfs.map (fun sf => (sf, crit)))
    | Option.none => .ok [(fieldName, some [])]
  else .ok [(fieldName, some [("$eq-implicit".data, value)])]

end Beanie

namespace SA

/-- A SQLAlchemy relationship of the target model, as inspected by
`_get_relationships`: its key, the related class, and the join clauses
(the optional `secondary` table for many-to-many relationships). -/
structure Rel where
  key : Str
  relClass : Str
  secondary : Option Str
  primaryjoin : Str
  secondaryjoin : Str
  deriving DecidableEq

/-- The `Constants` of a SQLAlchemy-backend filter class: the target model
(its name, attribute names and relationships), the ordering field name and
the search configuration. -/
structure Constants where
  modelName : Str
  modelAttrs : List Str
  rels : List Rel
  ordName : Str
  searchFieldName : Str
  searchModelFields : Option (List Str)
  deriving DecidableEq

/-- One compiled predicate `getattr(getattr(model, field), op)(value)`. -/
structure Pred where
  model : Str
  field : Str
  op : Str
  value : Val
  deriving DecidableEq

/-- One `query.filter(...)` argument: either a single predicate or the
`or_` of case-insensitive `%value%` pattern matches over the configured
search fields. -/
inductive Clause where
  | pred (p : Pred)
  | orIlike (model : Str) (fields : List Str) (value : Val)
  deriving DecidableEq

/-- The symbolic SQLAlchemy query: the `outerjoin` calls (target, on-clause)
the `filter` calls and the `order_by` calls (column, direction) applied so
far, in order. -/
structure Query where
  joins : List (Str × Str)
  clauses : List Clause
  orderBys : List (Str × Str)
  deriving DecidableEq

/-- A nested (flat) SQLAlchemy sub-filter instance together with its own
`Constants`. -/
structure SubFilter where
  cs : Constants
  fields : Fields
  deriving DecidableEq

/-- The value of a parent-filter field: a plain value or a nested
sub-filter instance. -/
inductive PVal where
  | scalar (v : Val)
  | nested (sub : SubFilter)
  deriving DecidableEq

/-- A parent filter instance (fields may hold nested sub-filters). -/
abbrev PFields := List (Str × Entry PVal)

/-- What `model_dump` produces for one field value: a plain value or, for a
nested sub-filter, its own dump (a dict). -/
inductive DVal where
  | v (x : Val)
  | dict (d : List (Str × Val))
  deriving DecidableEq

/-- Dump one parent field value: a nested instance dumps with the same
`exclude_none=True, exclude_unset=True` flags. -/
def dumpPVal : PVal → DVal
  | .scalar v => .v v
  | .nested sub => .dict (model_dump true false true sub.fields)

/-- The entries of the parent instance that survive `filtering_fields`:
explicitly set, not the ordering field, and not valued `None`.  (The pairs
`(name, dumped value)` of `filtering_fields` are exactly the image of these
entries under `dumpPVal`; iterating the entries also gives direct access to
`getattr(self, field_name)` as the source loop does.) -/
def pFilteringEntries (ordName : Str) (fs : PFields) : PFields :=
  fs.filter (fun p =>
    p.2.isSet && p.1 ≠ ordName && !(p.2.value = PVal.scalar Val.none))

/-- `_any_field_not_none` (contrib/sqlalchemy/filter.py) applied to a
dumped value.  On a dict it checks whether any value is not `None` (the
recursion into nested dicts cannot trigger at nesting depth one, where the
sub-dump holds plain values only).  The source would raise on a non-dict
(`.items()`); relationship-keyed fields are nested filters in practice, so
we extend totally with `true`. -/
def any_field_not_none : DVal → Bool
  | .dict d => d.any (fun p => p.2 ≠ Val.none)
  | .v _ => true

/-- `Filter._join_relationships`: for each relationship of the model, if the
filtering fields contain an entry for its key whose dumped value has some
non-`None` field, add the outer join(s) for that relationship. -/
def join_relationships (rels : List Rel) (dumped : List (Str × DVal))
    (q : Query) : Query :=
  rels.foldl (fun q rel =>
    match dumped.find? (fun p => p.1 = rel.key) with
    | some p =>
      if any_field_not_none p.2 then
        match rel.secondary with
        | some sec =>
          { q with joins := q.joins ++ [(sec, rel.primaryjoin),
                                        (rel.relClass, rel.secondaryjoin)] }
        | Option.none =>
          { q with joins := q.joins ++ [(rel.relClass, rel.primaryjoin)] }
      else q
    | Option.none => q) q

/-- The non-nested branch of `Filter._apply_filters`: parse the operator
out of the field name (`field_name.split("__")` with two-target unpacking),
run the operator transformer, then emit either the search `or_` clause or
a single predicate. -/
def apply_scalar (cs : Constants) (q : Query) (fieldName : Str) (value : Val) :
    Except Str Query := do
  let parsed ←
    if containsDunder fieldName then
      match splitDunder fieldName with
      | [a, b] => do
        let ov ← orm_operator_transformer b value
        pure (a, ov.1, ov.2)
      | _ => .error "ValueError: unpacking field_name.split failed".data
    else pure (fieldName, "__eq__".data, value)
  match parsed with
  | (fname, op, v) =>
    if fname = cs.searchFieldName ∧ cs.searchModelFields ≠ Option.none then
      match cs.searchModelFields with
      | some sfs => pure { q with clauses := q.clauses ++ [.orIlike cs.modelName sfs v] }
      | Option.none => pure q
    else
      pure { q with clauses := q.clauses ++ [.pred ⟨cs.modelName, fname, op, v⟩] }

/-- `Filter.filter` of a flat (nesting depth one) sub-filter: join its own
relationships, then apply its scalar filtering fields. -/
def sub_filter (sub : SubFilter) (q : Query) : Except Str Query :=
  let dumped := (filtering_fields sub.cs.ordName sub.fields).map
    (fun p => (p.1, DVal.v p.2))
  let q1 := join_relationships sub.cs.rels dumped q
  (filtering_fields sub.cs.ordName sub.fields).foldlM
    (fun q p => apply_scalar sub.cs q p.1 p.2) q1

/-- `Filter.filter` of a parent filter: join the relationships that have a
filter condition, then walk the filtering fields; a nested sub-filter
instance recursively applies its own `filter`, a plain field compiles
through `apply_scalar`. -/
def parent_filter (cs : Constants) (fs : PFields) (q : Query) :
    Except Str Query :=
  let entries := pFilteringEntries cs.ordName fs
  let q1 := join_relationships cs.rels
    (entries.map (fun p => (p.1, dumpPVal p.2.value))) q
  entries.foldlM (fun q p =>
    match p.2.value with
    | .nested sub => sub_filter sub q
    | .scalar v => apply_scalar cs q p.1 v) q1

/-- `Filter.sort` (contrib/sqlalchemy/filter.py): read `ordering_values`
(raising if the ordering field is not declared), return the query unchanged
on a falsy value, otherwise emit one `order_by` per token, descending for a
leading `-`, on the model attribute named after removing every `-`/`+`. -/
def sort (cs : Constants) (fs : Fields) (q : Query) : Except Str Query := do
  let ov ← ordering_values cs.ordName fs
  if isFalsy ov then pure q
  else do
    let toks ← iterTokens ov
    toks.foldlM (fun q tok => do
      let dir := if tok.head? = some '-' then "desc".data else "asc".data
      let fname := stripDirection tok
      if cs.modelAttrs.contains fname then
        pure { q with orderBys := q.orderBys ++ [(fname, dir)] }
      else .error ("AttributeError: ".data ++ fname)) q

end SA

namespace Mongo

/-- The `Constants` of a MongoEngine-backend filter class. -/
structure Constants where
  ordName : Str
  searchFieldName : Str
  searchModelFields : Option (List Str)
  deriving DecidableEq

/-- One `query.filter(...)` call of a flat (nesting depth one) MongoEngine
filter: a single keyword argument, or the OR of `__icontains` search terms. -/
inductive FlatStep where
  | kv (key : Str) (value : Val)
  | orSearch (fields : List Str) (value : Val)
  deriving DecidableEq

/-- One `query.filter(...)` call of a parent MongoEngine filter: as above,
plus the `{field__in: <compiled sub-query>}` form used for nested filters. -/
inductive Step where
  | kv (key : Str) (value : Val)
  | orSearch (fields : List Str) (value : Val)
  | subIn (key : Str) (substeps : List FlatStep)
  deriving DecidableEq

/-- The scalar branch of `Filter.filter` (contrib/mongoengine/filter.py):
rewrite `…__isnull` (dropping the suffix, adding `__ne` for `False`, and
replacing the value by `None`), then emit the search OR or a single
keyword filter. -/
def apply_scalar_step (cs : Constants) (fieldName : Str) (value : Val) :
    FlatStep :=
  let p :=
    if List.isSuffixOf "__isnull".data fieldName then
      let base := removeAll "__isnull".data fieldName
      if value = .bool false then (base ++ "__ne".data, Val.none)
      else (base, Val.none)
    else (fieldName, value)
  if p.1 = cs.searchFieldName ∧ cs.searchModelFields ≠ Option.none then
    match cs.searchModelFields with
    | some sfs => .orSearch sfs p.2
    | Option.none => .kv p.1 p.2
  else .kv p.1 p.2

/-- A nested (flat) MongoEngine sub-filter instance with its `Constants`. -/
structure SubFilter where
  cs : Constants
  fields : Fields
  deriving DecidableEq

/-- `Filter.filter` of a flat sub-filter, run against the fresh
`Constants.model.objects()` query-set: the list of filter calls it makes. -/
def flat_filter (sub : SubFilter) : List FlatStep :=
  (filtering_fields sub.cs.ordName sub.fields).map
    (fun p => apply_scalar_step sub.cs p.1 p.2)

/-- The value of a parent MongoEngine filter field. -/
inductive PVal where
  | scalar (v : Val)
  | nested (sub : SubFilter)
  deriving DecidableEq

/-- A parent MongoEngine filter instance. -/
abbrev PFields := List (Str × Entry PVal)

/-- The parent entries surviving `filtering_fields` (set, not ordering,
not `None`). -/
def pFilteringEntries (ordName : Str) (fs : PFields) : PFields :=
  fs.filter (fun p =>
    p.2.isSet && p.1 ≠ ordName && !(p.2.value = PVal.scalar Val.none))

/-- `Filter.filter` of a parent MongoEngine filter: for each filtering
field, a nested sub-filter whose `model_dump(exclude_none=True,
exclude_unset=True)` is empty is skipped entirely; a non-empty nested
sub-filter contributes `{field__in: <its compiled sub-query>}`; plain
fields go through the scalar branch. -/
def parent_filter (cs : Constants) (fs : PFields) (q : List Step) :
    List Step :=
  (pFilteringEntries cs.ordName fs).foldl (fun q p =>
    match p.2.value with
    | .nested sub =>
      if (model_dump true false true sub.fields).isEmpty then q
      else q ++ [.subIn (p.1 ++ "__in".data) (flat_filter sub)]
    | .scalar v => q ++ [liftFlat (apply_scalar_step cs p.1 v)]) q
where
  liftFlat : FlatStep → Step
    | .kv k v => .kv k v
    | .orSearch f v => .orSearch f v

end Mongo

-- Round-trip lemmas for the comma splitter.

theorem splitComma_ne_nil (s : Str) : splitComma s ≠ [] := by
  induction s with
  | nil => simp [splitComma]
  | cons c rest ih =>
    simp only [splitComma]
    match h : splitComma rest with
    | [] => exact absurd h ih
    | x :: xs =>
      by_cases hc : c = ','
      · simp [hc]
      · simp [hc]

theorem splitComma_no_comma (t : Str) (h : ',' ∉ t) : splitComma t = [t] := by
  induction t with
  | nil => rfl
  | cons c rest ih =>
    have hc : c ≠ ',' := fun hc => h (hc ▸ List.mem_cons_self c rest)
    have hrest : ',' ∉ rest := fun hm => h (List.mem_cons_of_mem c hm)
    simp only [splitComma, ih hrest]
    simp [hc]

theorem splitComma_append (t cs : Str) (h : ',' ∉ t) :
    splitComma (t ++ ',' :: cs) = t :: splitComma cs := by
  induction t with
  | nil =>
    simp only [List.nil_append, splitComma]
    match hs : splitComma cs with
    | [] => exact absurd hs (splitComma_ne_nil cs)
    | x :: xs => simp
  | cons c rest ih =>
    have hc : c ≠ ',' := fun hc => h (hc ▸ List.mem_cons_self c rest)
    have hrest : ',' ∉ rest := fun hm => h (List.mem_cons_of_mem c hm)
    simp only [List.cons_append, splitComma, List.append_eq]
    rw [ih hrest]
    simp [hc]

theorem splitComma_joinComma (T : List Str) (hne : T ≠ [])
    (hc : ∀ t ∈ T, ',' ∉ t) : splitComma (joinComma T) = T := by
  induction T with
  | nil => exact absurd rfl hne
  | cons t rest ih =>
    match rest with
    | [] =>
      simp only [joinComma]
      exact splitComma_no_comma t (hc t (List.mem_cons_self t []))
    | u :: rest2 =>
      have h1 : ',' ∉ t := hc t (List.mem_cons_self t (u :: rest2))
      have h2 : ∀ x ∈ u :: rest2, ',' ∉ x := fun x hx => hc x (List.mem_cons_of_mem t hx)
      simp only [joinComma]
      rw [splitComma_append t (joinComma (u :: rest2)) h1]
      rw [ih (by simp) h2]

theorem joinComma_eq_nil (T : List Str) (h : joinComma T = []) :
    T = [] ∨ T = [[]] := by
  match T with
  | [] => exact Or.inl rfl
  | [t] =>
    simp only [joinComma] at h
    exact Or.inr (by rw [h])
  | t :: u :: rest =>
    simp only [joinComma] at h
    exact absurd h (by simp)

/-- C2: for any sequence of comma-free tokens (other than the degenerate
singleton empty token, whose join is the empty string, which the hook maps
to the empty list as the claim itself requires), splitting the comma-join
recovers the sequence exactly; the empty string coerces to the empty list;
a non-string value passes through unchanged.  Stated for the SQLAlchemy
hook (`__in` / `__not_in` suffixes) and the Beanie hook (`__in` / `__nin`
suffixes) alike. -/
theorem split_str_roundtrip :
    (∀ (ordName fieldName : Str) (T : List Str),
      (fieldName = ordName ∨ List.isSuffixOf "__in".data fieldName = true ∨
        List.isSuffixOf "__not_in".data fieldName = true) →
      (∀ t ∈ T, ',' ∉ t) → T ≠ [[]] →
      SA.split_str ordName fieldName (.str (joinComma T)) = .list (T.map Prim.str))
    ∧ (∀ (ordName fieldName : Str),
      (fieldName = ordName ∨ List.isSuffixOf "__in".data fieldName = true ∨
        List.isSuffixOf "__not_in".data fieldName = true) →
      SA.split_str ordName fieldName (.str []) = .list [])
    ∧ (∀ (ordName fieldName : Str) (v : Val),
      (∀ s, v ≠ .str s) → SA.split_str ordName fieldName v = v)
    ∧ (∀ (ordName fieldName : Str) (T : List Str),
      (fieldName = ordName ∨ List.isSuffixOf "__in".data fieldName = true ∨
        List.isSuffixOf "__nin".data fieldName = true) →
      (∀ t ∈ T, ',' ∉ t) → T ≠ [[]] →
      Beanie.split_str ordName fieldName (.str (joinComma T)) = .list (T.map Prim.str))
    ∧ (∀ (ordName fieldName : Str) (v : Val),
      (∀ s, v ≠ .str s) → Beanie.split_str ordName fieldName v = v) := by
  have hcondSA : ∀ (ordName fieldName : Str),
      (fieldName = ordName ∨ List.isSuffixOf "__in".data fieldName = true ∨
        List.isSuffixOf "__not_in".data fieldName = true) →
      (decide (fieldName = ordName) || List.isSuffixOf "__in".data fieldName ||
        List.isSuffixOf "__not_in".data fieldName) = true := by
    intro o f h
    rcases h with h | h | h <;> simp [h]
  have hcondB : ∀ (ordName fieldName : Str),
      (fieldName = ordName ∨ List.isSuffixOf "__in".data fieldName = true ∨
        List.isSuffixOf "__nin".data fieldName = true) →
      (decide (fieldName = ordName) || List.isSuffixOf "__in".data fieldName ||
        List.isSuffixOf "__nin".data fieldName) = true := by
    intro o f h
    rcases h with h | h | h <;> simp [h]
  have core : ∀ (T : List Str), (∀ t ∈ T, ',' ∉ t) → T ≠ [[]] →
      (if joinComma T = [] then Val.list [] else
        Val.list ((splitComma (joinComma T)).map Prim.str)) = .list (T.map Prim.str) := by
    intro T hc hne
    by_cases hj : joinComma T = []
    · rcases joinComma_eq_nil T hj with h | h
      · subst h
        rw [if_pos hj]
        rfl
      · exact absurd h hne
    · have hT : T ≠ [] := by
        intro h
        exact hj (by simp [h, joinComma])
      rw [if_neg hj, splitComma_joinComma T hT hc]
  refine ⟨?_, ?_, ?_, ?_, ?_⟩
  · intro o f T happ hc hne
    show SA.split_str o f (.str (joinComma T)) = _
    unfold SA.split_str
    rw [if_pos (hcondSA o f happ)]
    exact core T hc hne
  · intro o f happ
    unfold SA.split_str
    rw [if_pos (hcondSA o f happ)]
    rfl
  · intro o f v hv
    unfold SA.split_str
    match v with
    | .str s => exact absurd rfl (hv s)
    | .none => simp
    | .bool b => simp
    | .int n => simp
    | .list vs => simp
  · intro o f T happ hc hne
    unfold Beanie.split_str
    rw [if_pos (hcondB o f happ)]
    exact core T hc hne
  · intro o f v hv
    unfold Beanie.split_str
    match v with
    | .str s => exact absurd rfl (hv s)
    | .none => simp
    | .bool b => simp
    | .int n => simp
    | .list vs => simp

/-- Witness for `split_str_roundtrip`: concrete instance with tokens
`["ab", "c"]` on the ordering field. -/
theorem split_str_roundtrip_witness :
    (∀ t ∈ (["ab".data, "c".data] : List Str), ',' ∉ t) ∧
    SA.split_str "order_by".data "order_by".data
      (.str (joinComma ["ab".data, "c".data])) =
      .list (["ab".data, "c".data].map Prim.str) :=
  ⟨by decide,
   split_str_roundtrip.1 "order_by".data "order_by".data ["ab".data, "c".data]
     (Or.inl rfl) (by decide) (by decide)⟩

-- Helper lemmas about the usage map of `validate_order_by`.

theorem addUsage_not_mem (us : List (Str × List Str)) (b t : Str)
    (h : ∀ p ∈ us, b ≠ p.1) : addUsage us b t = us ++ [(b, [t])] := by
  induction us with
  | nil => rfl
  | cons p rest ih =>
    have hb : p.1 ≠ b := fun he => h p (List.mem_cons_self p rest) he.symm
    match p with
    | (k, toks) =>
      simp only [addUsage]
      rw [if_neg (by simpa using hb)]
      rw [ih (fun p hp => h p (List.mem_cons_of_mem _ hp))]
      simp

theorem lookupUsages_addUsage (us : List (Str × List Str)) (b t k : Str) :
    lookupUsages (addUsage us b t) k =
      if k = b then lookupUsages us k ++ [t] else lookupUsages us k := by
  induction us with
  | nil =>
    by_cases hk : k = b
    · subst hk
      simp [addUsage, lookupUsages, List.find?]
    · have hd : (decide (b = k)) = false := decide_eq_false (fun h => hk h.symm)
      simp [addUsage, lookupUsages, List.find?, hd, hk]
  | cons p rest ih =>
    match p with
    | (k0, toks) =>
      by_cases h0 : k0 = b
      · subst h0
        by_cases hk : k = k0
        · subst hk
          simp [addUsage, lookupUsages, List.find?]
        · have hd : (decide (k0 = k)) = false := decide_eq_false (fun h => hk h.symm)
          simp [addUsage, lookupUsages, List.find?, hd, hk]
      · by_cases hk : k = k0
        · subst hk
          have hkb : ¬ k = b := h0
          simp only [addUsage, if_neg h0]
          simp [lookupUsages, List.find?, hkb]
        · have hd : (decide (k0 = k)) = false := decide_eq_false (fun h => hk h.symm)
          simp only [addUsage, if_neg h0]
          simp only [lookupUsages, List.find?, hd]
          simpa [lookupUsages] using ih

theorem collectUsages_ok (model : List Str) (toks : List Str) :
    ∀ us, (∀ t ∈ toks, model.contains (stripDirection t) = true) →
    collectUsages model toks us =
      .ok (toks.foldl (fun u t => addUsage u (stripDirection t) t) us) := by
  induction toks with
  | nil => intro us _; rfl
  | cons t rest ih =>
    intro us hv
    have ht : model.contains (stripDirection t) = true :=
      hv t (List.mem_cons_self t rest)
    simp only [collectUsages, ht, if_pos]
    rw [ih _ (fun x hx => hv x (List.mem_cons_of_mem t hx))]
    rfl

theorem fold_usages_lengths (toks : List Str) :
    ∀ us, (∀ p ∈ us, p.2.length = 1) →
    (∀ t ∈ toks, ∀ p ∈ us, stripDirection t ≠ p.1) →
    (toks.map stripDirection).Nodup →
    ∀ p ∈ toks.foldl (fun u t => addUsage u (stripDirection t) t) us,
      p.2.length = 1 := by
  induction toks with
  | nil => intro us h1 _ _ p hp; exact h1 p hp
  | cons t rest ih =>
    intro us h1 h2 hnd p hp
    simp only [List.foldl_cons] at hp
    have hb : ∀ q ∈ us, stripDirection t ≠ q.1 :=
      fun q hq => h2 t (List.mem_cons_self t rest) q hq
    rw [addUsage_not_mem us (stripDirection t) t hb] at hp
    have hnd2 : (rest.map stripDirection).Nodup := by
      simpa using (List.nodup_cons.mp (by simpa using hnd)).2
    have hhead : stripDirection t ∉ rest.map stripDirection :=
      (List.nodup_cons.mp (by simpa using hnd)).1
    refine ih (us ++ [(stripDirection t, [t])]) ?_ ?_ hnd2 p hp
    · intro q hq
      rcases List.mem_append.mp hq with h | h
      · exact h1 q h
      · simp only [List.mem_singleton] at h
        simp [h]
    · intro t2 ht2 q hq
      rcases List.mem_append.mp hq with h | h
      · exact h2 t2 (List.mem_cons_of_mem t ht2) q h
      · simp only [List.mem_singleton] at h
        intro he
        have he2 : stripDirection t2 = stripDirection t := by
          rw [h] at he
          exact he
        exact hhead (he2 ▸ List.mem_map_of_mem stripDirection ht2)

theorem fold_usages_count (toks : List Str) :
    ∀ us k, (lookupUsages
        (toks.foldl (fun u t => addUsage u (stripDirection t) t) us) k).length =
      (lookupUsages us k).length + (toks.map stripDirection).count k := by
  induction toks with
  | nil => intro us k; simp
  | cons t rest ih =>
    intro us k
    simp only [List.foldl_cons]
    rw [ih]
    rw [lookupUsages_addUsage]
    by_cases hk : k = stripDirection t
    · subst hk
      simp only [if_pos rfl, List.map_cons, List.count_cons, List.length_append,
        List.length_cons, List.length_nil, beq_self_eq_true, if_pos]
      omega
    · have hd : ¬ (stripDirection t = k) := fun h => hk h.symm
      rw [if_neg hk]
      simp only [List.map_cons, List.count_cons, beq_iff_eq, if_neg hd]
      omega

theorem str_two_le_count_of_not_nodup (l : List Str) (h : ¬ l.Nodup) :
    ∃ a, 2 ≤ l.count a := by
  induction l with
  | nil => exact absurd List.nodup_nil h
  | cons x xs ih =>
    by_cases hx : x ∈ xs
    · refine ⟨x, ?_⟩
      rw [List.count_cons_self]
      have : 0 < xs.count x := List.count_pos_iff.mpr hx
      omega
    · have hxs : ¬ xs.Nodup := fun hnd => h (List.nodup_cons.mpr ⟨hx, hnd⟩)
      rcases ih hxs with ⟨a, ha⟩
      refine ⟨a, le_trans ha ?_⟩
      rw [List.count_cons]
      exact Nat.le_add_right _ _

theorem bind_ok_eq {ε α β : Type} (x : α) (f : α → Except ε β) :
    (Except.ok x >>= f) = f x := rfl

theorem pure_bind_eq {ε α β : Type} (x : α) (f : α → Except ε β) :
    ((pure x : Except ε α) >>= f) = f x := rfl

theorem iterTokens_strs (toks : List Str) :
    iterTokens (.list (toks.map Prim.str)) = .ok toks := by
  induction toks with
  | nil => rfl
  | cons t rest ih =>
    simp only [iterTokens] at ih ⊢
    simp only [List.map_cons, List.mapM_cons, ih]
    rfl

/-- C1 (counterexample): on tokens `["age", "-name", "name", "age"]` the
duplicate-ordering error enumerates `age, age, -name, name` (groups sorted
by base name: the `age` group first, then the `name` group), not the
`-age, age, name, name` the claim asserts. -/
theorem validate_order_by_enumeration_counterexample :
    validate_order_by "order_by".data ["age".data, "name".data] "order_by".data
        (.list [Prim.str "age".data, Prim.str "-name".data,
                Prim.str "name".data, Prim.str "age".data]) =
      .error ("Field names can appear at most once for order_by. The following was ambiguous: age, age, -name, name.".data)
    ∧ containsSub "-age, age, name, name".data
        ("Field names can appear at most once for order_by. The following was ambiguous: age, age, -name, name.".data)
      = false :=
  ⟨rfl, by decide⟩

/-- C1 (amended): ordering validation with pairwise-distinct
direction-stripped base names (all naming model attributes) succeeds; any
duplicated base name makes it fail; the error enumerates every
duplicate-bearing token grouped by base name in sorted order and, within a
group, in original order: `["age","age"]` enumerates `age, age.`,
`["-age","age"]` enumerates `-age, age.`, and `["age","-name","name","age"]`
enumerates `age, age, -name, name.` (the `age` group before the `name`
group). -/
theorem validate_order_by_duplicate_detection :
    (∀ (ordName : Str) (model : List Str) (toks : List Str),
        toks ≠ [] →
        (∀ t ∈ toks, model.contains (stripDirection t) = true) →
        (toks.map stripDirection).Nodup →
        validate_order_by ordName model ordName (.list (toks.map Prim.str)) =
          .ok (.list (toks.map Prim.str)))
    ∧ (∀ (ordName : Str) (model : List Str) (toks : List Str),
        (∀ t ∈ toks, model.contains (stripDirection t) = true) →
        ¬ (toks.map stripDirection).Nodup →
        ∃ msg, validate_order_by ordName model ordName
          (.list (toks.map Prim.str)) = .error msg)
    ∧ validate_order_by "order_by".data ["age".data, "name".data]
        "order_by".data (.list [Prim.str "age".data, Prim.str "age".data]) =
      .error ("Field names can appear at most once for order_by. The following was ambiguous: age, age.".data)
    ∧ validate_order_by "order_by".data ["age".data, "name".data]
        "order_by".data (.list [Prim.str "-age".data, Prim.str "age".data]) =
      .error ("Field names can appear at most once for order_by. The following was ambiguous: -age, age.".data)
    ∧ validate_order_by "order_by".data ["age".data, "name".data]
        "order_by".data (.list [Prim.str "age".data, Prim.str "-name".data,
          Prim.str "name".data, Prim.str "age".data]) =
      .error ("Field names can appear at most once for order_by. The following was ambiguous: age, age, -name, name.".data) := by
  have hself : ∀ (o : Str), ¬ (o ≠ o) := fun o h => h rfl
  refine ⟨?_, ?_, rfl, rfl, rfl⟩
  · intro o model toks hne hv hnd
    have hfalsy : isFalsy (Val.list (toks.map Prim.str)) = false := by
      cases toks with
      | nil => exact absurd rfl hne
      | cons t rest => rfl
    simp only [validate_order_by, if_neg (hself o), hfalsy, Bool.false_eq_true,
      if_false, iterTokens_strs, bind_ok_eq,
      collectUsages_ok model toks [] hv]
    have hlen := fold_usages_lengths toks []
      (fun p hp => absurd hp (List.not_mem_nil p))
      (fun t _ p hp => absurd hp (List.not_mem_nil p)) hnd
    have hfilter : (toks.foldl (fun u t => addUsage u (stripDirection t) t)
        []).filter (fun p => 2 ≤ p.2.length) = [] := by
      rw [List.filter_eq_nil_iff]
      intro p hp
      have := hlen p hp
      simp [this]
    rw [hfilter]
    rfl
  · intro o model toks hv hnd
    by_cases hne : toks = []
    · exact absurd (by simp [hne]) hnd
    have hfalsy : isFalsy (Val.list (toks.map Prim.str)) = false := by
      cases toks with
      | nil => exact absurd rfl hne
      | cons t rest => rfl
    simp only [validate_order_by, if_neg (hself o), hfalsy, Bool.false_eq_true,
      if_false, iterTokens_strs, bind_ok_eq,
      collectUsages_ok model toks [] hv]
    obtain ⟨a, ha⟩ := str_two_le_count_of_not_nodup (toks.map stripDirection) hnd
    have hlook : 2 ≤ (lookupUsages
        (toks.foldl (fun u t => addUsage u (stripDirection t) t) []) a).length := by
      rw [fold_usages_count toks [] a]
      simpa [lookupUsages] using ha
    obtain ⟨p, hf⟩ : ∃ p, (toks.foldl (fun u t => addUsage u (stripDirection t) t)
        []).find? (fun p => p.1 = a) = some p := by
      cases hf : (toks.foldl (fun u t => addUsage u (stripDirection t) t)
          []).find? (fun p => p.1 = a) with
      | none =>
        rw [lookupUsages, hf] at hlook
        exact absurd hlook (by simp)
      | some p => exact ⟨p, rfl⟩
    have hp_mem : p ∈ toks.foldl (fun u t => addUsage u (stripDirection t) t) [] :=
      List.mem_of_find?_eq_some hf
    have hp_len : 2 ≤ p.2.length := by
      rw [lookupUsages, hf] at hlook
      exact hlook
    have hp_filter : p ∈ (toks.foldl (fun u t => addUsage u (stripDirection t) t)
        []).filter (fun q => 2 ≤ q.2.length) :=
      List.mem_filter.mpr ⟨hp_mem, by simpa using hp_len⟩
    have hie : (((toks.foldl (fun u t => addUsage u (stripDirection t) t)
        []).filter (fun q => 2 ≤ q.2.length)).map (fun q => q.1)).isEmpty = false := by
      cases hmap : ((toks.foldl (fun u t => addUsage u (stripDirection t) t)
          []).filter (fun q => 2 ≤ q.2.length)).map (fun q => q.1) with
      | nil =>
        rw [List.map_eq_nil_iff] at hmap
        rw [hmap] at hp_filter
        exact absurd hp_filter (List.not_mem_nil p)
      | cons x xs => rfl
    simp only [hie, Bool.false_eq_true, if_false]
    exact ⟨_, rfl⟩

/-- Witness for `validate_order_by_duplicate_detection`: tokens
`["age", "-name"]` have pairwise-distinct base names and pass validation. -/
theorem validate_order_by_duplicate_detection_witness :
    (["age".data, "-name".data] : List Str) ≠ [] ∧
    (∀ t ∈ (["age".data, "-name".data] : List Str),
      (["age".data, "name".data] : List Str).contains (stripDirection t) = true) ∧
    ((["age".data, "-name".data] : List Str).map stripDirection).Nodup ∧
    validate_order_by "order_by".data ["age".data, "name".data]
      "order_by".data (.list (["age".data, "-name".data].map Prim.str)) =
      .ok (.list (["age".data, "-name".data].map Prim.str)) :=
  ⟨by decide, by decide, by decide,
   validate_order_by_duplicate_detection.1 "order_by".data
     ["age".data, "name".data] ["age".data, "-name".data]
     (by decide) (by decide) (by decide)⟩

theorem bind_error_eq {ε α β : Type} (e : ε) (f : α → Except ε β) :
    (Except.error e >>= f) = .error e := rfl

/-- C10 (counterexample): `strip_order_by_values` does NOT run before
`validate_order_by` — pydantic applies `mode="before"` validators in
reverse definition order, so validation sees the raw tokens.  The token
`" age"` (model attribute `age`) is rejected as an unknown ordering field
by the composite pipeline, although the strip hook alone would have
normalised it to `"age"`. -/
theorem strip_after_validate_counterexample :
    sa_ordering_pipeline "order_by".data ["age".data]
        (.list [Prim.str " age".data]) =
      .error " age is not a valid ordering field.".data
    ∧ strip_order_by_values "order_by".data "order_by".data
        (.list [Prim.str " age".data]) =
      .ok (.list [Prim.str "age".data]) :=
  ⟨rfl, rfl⟩

/-- C10 (amended): the strip hook itself normalises any falsy ordering
value to `None`, whitespace-strips each token and drops tokens that become
empty, and leaves non-ordering fields alone; but it runs AFTER
`validate_order_by` (pydantic before-validators run in reverse definition
order), so the duplicate/unknown-field checks see the raw unstripped
tokens and a token with surrounding whitespace is rejected as an unknown
field rather than stripped first. -/
theorem strip_order_by_values_normalisation :
    (∀ (ordName : Str) (v : Val), isFalsy v = true →
      strip_order_by_values ordName ordName v = .ok .none)
    ∧ (∀ (ordName : Str) (toks : List Str), toks ≠ [] →
      strip_order_by_values ordName ordName (.list (toks.map Prim.str)) =
        .ok (.list (((toks.map pyStrip).filter (fun t => t ≠ [])).map Prim.str)))
    ∧ (∀ (ordName fieldName : Str) (v : Val), fieldName ≠ ordName →
      strip_order_by_values ordName fieldName v = .ok v)
    ∧ sa_ordering_pipeline "order_by".data ["age".data]
        (.list [Prim.str " age".data]) =
      .error " age is not a valid ordering field.".data
    ∧ sa_ordering_pipeline "order_by".data ["age".data] (.str []) =
      .ok .none := by
  refine ⟨?_, ?_, ?_, rfl, rfl⟩
  · intro o v h
    simp [strip_order_by_values, h]
  · intro o toks hne
    have hself : ¬ (o ≠ o) := fun h => h rfl
    have hfalsy : isFalsy (Val.list (toks.map Prim.str)) = false := by
      cases toks with
      | nil => exact absurd rfl hne
      | cons t rest => rfl
    simp only [strip_order_by_values, if_neg hself,
      hfalsy, Bool.false_eq_true, if_false, iterTokens_strs, bind_ok_eq]
  · intro o f v h
    simp [strip_order_by_values, h]

/-- Witness for `strip_order_by_values_normalisation`: tokens
`[" a ", "  "]` strip to `["a"]` (the all-whitespace token is dropped). -/
theorem strip_order_by_values_normalisation_witness :
    ([" a ".data, "  ".data] : List Str) ≠ [] ∧
    strip_order_by_values "order_by".data "order_by".data
      (.list ([" a ".data, "  ".data].map Prim.str)) =
      .ok (.list ((([" a ".data, "  ".data].map pyStrip).filter
        (fun t => t ≠ [])).map Prim.str)) :=
  ⟨by decide,
   strip_order_by_values_normalisation.2.1 "order_by".data
     [" a ".data, "  ".data] (by decide)⟩

/-- C9: when the filter class does not declare the ordering field at all,
`ordering_values` (and therefore `sort`, which reads it first) raises the
dedicated "ordering field is not defined" error naming the field, instead
of treating the ordering as empty. -/
theorem ordering_values_missing_field :
    (∀ (ordName : Str) (fs : Fields),
      fs.find? (fun p => p.1 = ordName) = Option.none →
      ordering_values ordName fs = .error ("Ordering field ".data ++ ordName ++
        " is not defined. Make sure to add it to your filter class.".data))
    ∧ (∀ (cs : SA.Constants) (fs : Fields) (q : SA.Query),
      fs.find? (fun p => p.1 = cs.ordName) = Option.none →
      SA.sort cs fs q = .error ("Ordering field ".data ++ cs.ordName ++
        " is not defined. Make sure to add it to your filter class.".data)) := by
  constructor
  · intro o fs h
    simp [ordering_values, h]
  · intro cs fs q h
    simp only [SA.sort, ordering_values, h]
    rfl

/-- Witness for `ordering_values_missing_field`: a filter declaring only a
`name` field has no `order_by` attribute, and `sort` raises. -/
theorem ordering_values_missing_field_witness :
    ([("name".data, (⟨Val.none, Val.none, false⟩ : Entry Val))] : Fields).find?
      (fun p => p.1 = "order_by".data) = Option.none ∧
    ordering_values "order_by".data
      [("name".data, (⟨Val.none, Val.none, false⟩ : Entry Val))] =
      .error ("Ordering field ".data ++ "order_by".data ++
        " is not defined. Make sure to add it to your filter class.".data) :=
  ⟨by decide,
   ordering_values_missing_field.1 "order_by".data
     [("name".data, ⟨Val.none, Val.none, false⟩)] (by decide)⟩

theorem mem_filtering_fields (ordName n : Str) (v : Val) (fs : Fields) :
    (n, v) ∈ filtering_fields ordName fs ↔
      ∃ e : Entry Val, (n, e) ∈ fs ∧ e.isSet = true ∧ e.value = v ∧
        v ≠ Val.none ∧ n ≠ ordName := by
  simp only [filtering_fields, List.mem_filter, model_dump, List.mem_filterMap]
  constructor
  · rintro ⟨⟨p, hp, hf⟩, hord⟩
    split_ifs at hf with h1 h2 h3
    have hn : p.1 = n := congrArg Prod.fst (Option.some.inj hf)
    have hv : p.2.value = v := congrArg Prod.snd (Option.some.inj hf)
    refine ⟨p.2, ?_, ?_, ?_, ?_, ?_⟩
    · rw [← hn]
      exact hp
    · by_cases hs : p.2.isSet
      · exact hs
      · exact absurd (by simp [hs]) h1
    · exact hv
    · intro hnone
      exact h3 (by simp [hv, hnone])
    · simpa using hord
  · rintro ⟨e, he, h1, h2, h3, h4⟩
    refine ⟨⟨(n, e), he, ?_⟩, by simpa using h4⟩
    rw [if_neg (by simp [h1]), if_neg (by simp), if_neg (by simp [h2, h3])]
    rw [h2]

theorem mem_mkInstance (schema data : List (Str × Val)) (n : Str)
    (e : Entry Val) :
    (n, e) ∈ mkInstance schema data ↔
      ∃ d, (n, d) ∈ schema ∧
        e = ⟨(lookupData data n).getD d, d, (lookupData data n).isSome⟩ := by
  simp only [mkInstance, List.mem_map]
  constructor
  · rintro ⟨p, hp, hpe⟩
    have hn : p.1 = n := congrArg Prod.fst hpe
    have he : (⟨(lookupData data p.1).getD p.2, p.2,
        (lookupData data p.1).isSome⟩ : Entry Val) = e :=
      congrArg Prod.snd hpe
    refine ⟨p.2, ?_, ?_⟩
    · rw [← hn]
      exact hp
    · rw [← he, hn]
  · rintro ⟨d, hd, he⟩
    exact ⟨(n, d), hd, by rw [he]⟩

/-- C3 (counterexample): with schema default `count = 5`, explicitly
supplying `count = 5` through the `FilterDepends` wrapper does NOT make the
field participate: the wrapper dumps with `exclude_defaults=True`, so the
reconstructed instance has `count` unset and `filtering_fields` is empty —
even though direct construction with the same data does include it. -/
theorem filter_depends_default_drop_counterexample :
    filterWrapper [("count".data, Val.int 5)] [("count".data, Val.int 5)] =
      .ok [("count".data, ⟨Val.int 5, Val.int 5, false⟩)]
    ∧ filtering_fields "order_by".data
        [("count".data, (⟨Val.int 5, Val.int 5, false⟩ : Entry Val))] = []
    ∧ filtering_fields "order_by".data
        (mkInstance [("count".data, Val.int 5)] [("count".data, Val.int 5)]) =
      [("count".data, Val.int 5)] :=
  ⟨rfl, rfl, rfl⟩

/-- C3 (amended): on a directly constructed instance, `filtering_fields`
holds exactly the pairs that were explicitly supplied, are not `None`, and
are not the ordering field — so a field left at its default never appears,
and explicitly supplying a value equal to the default does make it
participate; but an instance rebuilt by the `FilterDepends` wrapper dumps
with `exclude_defaults=True`, so there an explicitly supplied value equal
to the schema default is dropped and does not participate. -/
theorem filtering_fields_characterisation :
    (∀ (ordName n : Str) (v : Val) (schema data : List (Str × Val)),
      ((n, v) ∈ filtering_fields ordName (mkInstance schema data) ↔
        (n ∈ schema.map Prod.fst ∧ lookupData data n = some v ∧
         v ≠ Val.none ∧ n ≠ ordName)))
    ∧ (∀ (ordName n : Str) (schema data : List (Str × Val)),
        lookupData data n = Option.none →
        ∀ v, (n, v) ∉ filtering_fields ordName (mkInstance schema data))
    ∧ filtering_fields "order_by".data
        (mkInstance [("count".data, Val.int 5)] [("count".data, Val.int 5)]) =
      [("count".data, Val.int 5)]
    ∧ (filterWrapper [("count".data, Val.int 5)] [("count".data, Val.int 5)] =
        .ok [("count".data, ⟨Val.int 5, Val.int 5, false⟩)]
      ∧ filtering_fields "order_by".data
          [("count".data, (⟨Val.int 5, Val.int 5, false⟩ : Entry Val))] = []) := by
  have part1 : ∀ (ordName n : Str) (v : Val) (schema data : List (Str × Val)),
      ((n, v) ∈ filtering_fields ordName (mkInstance schema data) ↔
        (n ∈ schema.map Prod.fst ∧ lookupData data n = some v ∧
         v ≠ Val.none ∧ n ≠ ordName)) := by
    intro ordName n v schema data
    rw [mem_filtering_fields]
    constructor
    · rintro ⟨e, he, hset, hval, hnn, hord⟩
      rcases (mem_mkInstance schema data n e).mp he with ⟨d, hd, he2⟩
      have hsome : (lookupData data n).isSome = true := by
        rw [he2] at hset
        exact hset
      obtain ⟨v0, hv0⟩ := Option.isSome_iff_exists.mp hsome
      have hev : e.value = v0 := by
        rw [he2]
        simp [hv0]
      refine ⟨?_, ?_, hnn, hord⟩
      · exact List.mem_map.mpr ⟨(n, d), hd, rfl⟩
      · rw [hv0, ← hval, hev]
    · rintro ⟨hmem, hlook, hnn, hord⟩
      obtain ⟨p, hp, hp1⟩ := List.mem_map.mp hmem
      refine ⟨⟨v, p.2, true⟩, ?_, rfl, rfl, hnn, hord⟩
      apply (mem_mkInstance schema data n _).mpr
      refine ⟨p.2, ?_, ?_⟩
      · rw [← hp1]
        exact hp
      · rw [hlook]
        rfl
  refine ⟨part1, ?_, rfl, rfl, rfl⟩
  intro ordName n schema data hlook v hmem
  rcases (part1 ordName n v schema data).mp hmem with ⟨_, hsome, _, _⟩
  rw [hlook] at hsome
  exact Option.noConfusion hsome

/-- Witness for `filtering_fields_characterisation`: on schema
`{name: default None}` with data `{name: 7}`, the pair `(name, 7)` is in
`filtering_fields`. -/
theorem filtering_fields_characterisation_witness :
    ("name".data ∈ ([("name".data, Val.none)] : List (Str × Val)).map Prod.fst ∧
     lookupData [("name".data, Val.int 7)] "name".data = some (Val.int 7) ∧
     (Val.int 7) ≠ Val.none ∧ "name".data ≠ "order_by".data) ∧
    ("name".data, Val.int 7) ∈ filtering_fields "order_by".data
      (mkInstance [("name".data, Val.none)] [("name".data, Val.int 7)]) :=
  ⟨⟨by decide, by decide, by decide, by decide⟩,
   (filtering_fields_characterisation.1 "order_by".data "name".data
     (Val.int 7) [("name".data, Val.none)] [("name".data, Val.int 7)]).mpr
     ⟨by decide, by decide, by decide, by decide⟩⟩

theorem isPrefixOf_append_self (p t : Str) : p.isPrefixOf (p ++ t) = true := by
  induction p with
  | nil => simp
  | cons c rest ih => simpa [List.isPrefixOf] using ih

theorem pyRemovePre_append (p t : Str) : pyRemovePre p (p ++ t) = t := by
  rw [pyRemovePre, if_pos (isPrefixOf_append_self p t)]
  exact List.drop_left p t

theorem pyRemovePre_not_pre (p s : Str) (h : p.isPrefixOf s = false) :
    pyRemovePre p s = s := by
  rw [pyRemovePre, if_neg (by simp [h])]

/-- C4: `with_prefix("addr", F)` exposes the field `count` under the alias
`addr__count`, and the `FilterDepends` wrapper rebuilds from the input
`{addr__count: 5}` an instance of the original `F` equal to `F(count=5)`
(prefix stripped from every key of the dump and re-validated against `F`),
whether the wrapper dumps by alias or by field name; stated concretely and
for an arbitrary prefix, field name and non-default value. -/
theorem with_prefix_roundtrip :
    aliasOf "addr".data "count".data = "addr__count".data
    ∧ prefixedFilterWrapper true "addr".data [("count".data, Val.none)]
        [("addr__count".data, Val.int 5)] =
      .ok (mkInstance [("count".data, Val.none)] [("count".data, Val.int 5)])
    ∧ prefixedFilterWrapper false "addr".data [("count".data, Val.none)]
        [("addr__count".data, Val.int 5)] =
      .ok (mkInstance [("count".data, Val.none)] [("count".data, Val.int 5)])
    ∧ (∀ (pfx n : Str) (d v : Val), v ≠ d →
        prefixedFilterWrapper true pfx [(n, d)] [(aliasOf pfx n, v)] =
          .ok (mkInstance [(n, d)] [(n, v)]))
    ∧ (∀ (pfx n : Str) (d v : Val), v ≠ d →
        (pfx ++ "__".data).isPrefixOf n = false →
        prefixedFilterWrapper false pfx [(n, d)] [(aliasOf pfx n, v)] =
          .ok (mkInstance [(n, d)] [(n, v)])) := by
  have hinst : ∀ (pfx n : Str) (d v : Val),
      mkPrefixedInstance pfx [(n, d)] [(aliasOf pfx n, v)] =
        [(n, ⟨v, d, true⟩)] := by
    intro pfx n d v
    simp [mkPrefixedInstance, lookupData, List.find?]
  have hdump : ∀ (n : Str) (d v : Val), v ≠ d →
      model_dump true true false [(n, (⟨v, d, true⟩ : Entry Val))] = [(n, v)] := by
    intro n d v hv
    simp [model_dump, hv]
  have hvalidate : ∀ (n : Str) (d v : Val),
      validateModel [(n, d)] [(n, v)] = .ok (mkInstance [(n, d)] [(n, v)]) := by
    intro n d v
    simp [validateModel]
  refine ⟨rfl, rfl, rfl, ?_, ?_⟩
  · intro pfx n d v hv
    simp only [prefixedFilterWrapper, hinst pfx n d v, hdump n d v hv,
      if_true, List.map_cons, List.map_nil]
    rw [show aliasOf pfx n = (pfx ++ "__".data) ++ n by
          simp [aliasOf, List.append_assoc],
        pyRemovePre_append]
    exact hvalidate n d v
  · intro pfx n d v hv hpre
    simp only [prefixedFilterWrapper, hinst pfx n d v, hdump n d v hv,
      Bool.false_eq_true, if_false, List.map_cons, List.map_nil,
      pyRemovePre_not_pre _ _ hpre]
    exact hvalidate n d v

/-- Witness for `with_prefix_roundtrip`: the general by-alias round trip at
prefix `p`, field `num`, default `None`, value `3`. -/
theorem with_prefix_roundtrip_witness :
    (Val.int 3 ≠ Val.none) ∧
    prefixedFilterWrapper true "p".data [("num".data, Val.none)]
      [(aliasOf "p".data "num".data, Val.int 3)] =
      .ok (mkInstance [("num".data, Val.none)] [("num".data, Val.int 3)]) :=
  ⟨by decide,
   with_prefix_roundtrip.2.2.2.1 "p".data "num".data Val.none (Val.int 3)
     (by decide)⟩

/-- C7: the SQLAlchemy `isnull` operator compiles to `is_(None)` for `True`
and `is_not(None)` for `False` as the claim states; but the Tortoise
transformer discards the submitted boolean and always yields
`("__isnull", True)` — an IS NULL filter — even for `False`. -/
theorem isnull_compilation :
    (∀ v : Val, SA.orm_operator_transformer "isnull".data v =
      .ok (if v = .bool true then ("is_".data, Val.none)
           else ("is_not".data, Val.none)))
    ∧ SA.orm_operator_transformer "isnull".data (.bool true) =
      .ok ("is_".data, Val.none)
    ∧ SA.orm_operator_transformer "isnull".data (.bool false) =
      .ok ("is_not".data, Val.none)
    ∧ (∀ v : Val, Tortoise.orm_operator_transformer "isnull".data v =
      .ok ("__isnull".data, Val.bool true))
    ∧ Tortoise.orm_operator_transformer "isnull".data (.bool false) =
      .ok ("__isnull".data, Val.bool true) :=
  ⟨fun _ => rfl, rfl, rfl, fun _ => rfl, rfl⟩

/-- C8 (counterexample): the SQLAlchemy `neq` operator compiles to the
`__ne__` column method (plain `!=`), not to `is_not`. -/
theorem neq_not_is_not_counterexample :
    SA.orm_operator_transformer "neq".data (.int 3) =
      .ok ("__ne__".data, Val.int 3)
    ∧ "__ne__".data ≠ "is_not".data :=
  ⟨rfl, by decide⟩

/-- C8 (amended): in the SQLAlchemy backend only the `not` operator
compiles to the IS-NOT-style `is_not` applied to the literal value; the
`neq` operator compiles to `__ne__` (strict inequality). -/
theorem not_neq_operator_compilation :
    (∀ v : Val, SA.orm_operator_transformer "not".data v =
      .ok ("is_not".data, v))
    ∧ (∀ v : Val, SA.orm_operator_transformer "neq".data v =
      .ok ("__ne__".data, v)) :=
  ⟨fun _ => rfl, fun _ => rfl⟩

theorem splitDunder_ne_nil_aux :
    ∀ (n : Nat) (s : Str), s.length ≤ n → splitDunder s ≠ [] := by
  intro n
  induction n with
  | zero =>
    intro s hs
    have : s = [] := List.length_eq_zero.mp (Nat.le_zero.mp hs)
    subst this
    simp [splitDunder]
  | succ n ih =>
    intro s hs
    match s with
    | [] => simp [splitDunder]
    | [c] => simp [splitDunder]
    | c :: c2 :: rest =>
      rw [splitDunder]
      by_cases h : c = '_' ∧ c2 = '_'
      · simp [h]
      · rw [if_neg h]
        cases hsp : splitDunder (c2 :: rest) with
        | nil =>
          exact absurd hsp (ih (c2 :: rest) (by
            simpa using Nat.le_of_succ_le_succ hs))
        | cons x xs => simp

theorem splitDunder_ne_nil (s : Str) : splitDunder s ≠ [] :=
  splitDunder_ne_nil_aux s.length s (Nat.le_refl _)

theorem splitDunder_single_aux :
    ∀ (n : Nat) (s : Str), s.length ≤ n →
      ∀ x, splitDunder s = [x] → s = x := by
  intro n
  induction n with
  | zero =>
    intro s hs x h
    have : s = [] := List.length_eq_zero.mp (Nat.le_zero.mp hs)
    subst this
    simp [splitDunder] at h
    exact h.symm
  | succ n ih =>
    intro s hs x h
    match s with
    | [] =>
      simp [splitDunder] at h
      exact h.symm
    | [c] =>
      simp [splitDunder] at h
      first
      | exact h
      | exact h.symm
    | c :: c2 :: rest =>
      rw [splitDunder] at h
      by_cases hc : c = '_' ∧ c2 = '_'
      · rw [if_pos hc] at h
        have : splitDunder rest = [] := (List.cons.inj h).2
        exact absurd this (splitDunder_ne_nil rest)
      · rw [if_neg hc] at h
        cases hsp : splitDunder (c2 :: rest) with
        | nil => exact absurd hsp (splitDunder_ne_nil (c2 :: rest))
        | cons h0 t0 =>
          rw [hsp] at h
          have h' : (c :: h0) :: t0 = [x] := h
          have h1 : c :: h0 = x := (List.cons.inj h').1
          have h2 : t0 = [] := (List.cons.inj h').2
          have hrest : c2 :: rest = h0 := by
            apply ih (c2 :: rest) (by simpa using Nat.le_of_succ_le_succ hs)
            rw [hsp, h2]
          rw [← h1, hrest]

theorem splitDunder_single (s x : Str) (h : splitDunder s = [x]) : s = x :=
  splitDunder_single_aux s.length s (Nat.le_refl _) x h

theorem containsSub_dunder_append (a b : Str) :
    containsSub ['_', '_'] (a ++ '_' :: '_' :: b) = true := by
  induction a with
  | nil => simp [containsSub, List.isPrefixOf]
  | cons c a2 ih =>
    simp only [List.cons_append, containsSub, List.append_eq, ih, Bool.or_true]

theorem splitDunder_pair_aux :
    ∀ (n : Nat) (s : Str), s.length ≤ n →
      ∀ a b, splitDunder s = [a, b] →
        s = a ++ '_' :: '_' :: b ∧ containsSub ['_', '_'] a = false := by
  intro n
  induction n with
  | zero =>
    intro s hs a b h
    have : s = [] := List.length_eq_zero.mp (Nat.le_zero.mp hs)
    subst this
    simp [splitDunder] at h
  | succ n ih =>
    intro s hs a b h
    match s with
    | [] => simp [splitDunder] at h
    | [c] => simp [splitDunder] at h
    | c :: c2 :: rest =>
      rw [splitDunder] at h
      by_cases hc : c = '_' ∧ c2 = '_'
      · rw [if_pos hc] at h
        have ha : a = [] := ((List.cons.inj h).1).symm
        have hb : splitDunder rest = [b] := (List.cons.inj h).2
        have htail : rest = b := splitDunder_single rest b hb
        constructor
        · rw [ha, hc.1, hc.2, htail]
          rfl
        · rw [ha]
          rfl
      · rw [if_neg hc] at h
        cases hsp : splitDunder (c2 :: rest) with
        | nil => exact absurd hsp (splitDunder_ne_nil (c2 :: rest))
        | cons h0 t0 =>
          rw [hsp] at h
          have h' : (c :: h0) :: t0 = [a, b] := h
          have h1 : a = c :: h0 := ((List.cons.inj h').1).symm
          have h2 : t0 = [b] := (List.cons.inj h').2
          have hrec := ih (c2 :: rest)
            (by simpa using Nat.le_of_succ_le_succ hs)
            h0 b (by rw [hsp, h2])
          have hpre : List.isPrefixOf ['_', '_'] (c :: h0) = false := by
            by_cases hcu : c = '_'
            · cases hh0 : h0 with
              | nil =>
                exfalso
                have hre : c2 :: rest = '_' :: '_' :: b := by
                  have := hrec.1
                  rw [hh0] at this
                  simpa using this
                exact hc ⟨hcu, (List.cons.inj hre).1⟩
              | cons x xs =>
                have hx : x ≠ '_' := by
                  intro hx
                  apply hc
                  refine ⟨hcu, ?_⟩
                  have hre := hrec.1
                  rw [hh0] at hre
                  have : c2 = x := (List.cons.inj hre).1
                  rw [this, hx]
                simp [List.isPrefixOf, hcu, Ne.symm hx]
            · have hbc : ('_' == c) = false :=
                beq_eq_false_iff_ne.mpr (Ne.symm hcu)
              simp [List.isPrefixOf, hbc]
          constructor
          · rw [h1, hrec.1]
            rfl
          · rw [h1]
            simp only [containsSub, hpre, Bool.false_or]
            exact hrec.2

theorem splitDunder_pair (s a b : Str) (h : splitDunder s = [a, b]) :
    s = a ++ '_' :: '_' :: b ∧ containsSub ['_', '_'] a = false :=
  splitDunder_pair_aux s.length s (Nat.le_refl _) a b h

/-- C6 (counterexample): a declared field name with two `__` separators is
not split at the first occurrence: `field_name.split("__")` yields three
parts and the two-target unpacking raises, so no predicate is compiled for
`street__name__in` in either the SQLAlchemy or the Beanie compiler. -/
theorem dunder_split_counterexample :
    splitDunder "street__name__in".data =
      ["street".data, "name".data, "in".data]
    ∧ SA.apply_scalar
        ⟨"User".data, [], [], "order_by".data, "search".data, Option.none⟩
        ⟨[], [], []⟩ "street__name__in".data (.int 1) =
      .error "ValueError: unpacking field_name.split failed".data
    ∧ Beanie.filter_condition "search".data Option.none
        "street__name__in".data (.int 1) =
      .error "ValueError: unpacking field_name.split failed".data :=
  ⟨rfl, rfl, rfl⟩

/-- C6 (amended): when `split("__")` yields exactly two parts, the split is
at the first left-to-right occurrence of `__` (the base name contains no
`__`) and the compilers emit a predicate on the base field with the
operator looked up from the second part; a name with no `__` compiles to
the implicit equality predicate; a name splitting into three or more parts
fails the two-target unpacking instead of splitting at the first
occurrence. -/
theorem dunder_operator_split :
    (∀ s a b, splitDunder s = [a, b] →
      s = a ++ '_' :: '_' :: b ∧ containsSub ['_', '_'] a = false)
    ∧ (∀ (cs : SA.Constants) (q : SA.Query) (fieldName : Str) (value : Val)
        (a b op : Str) (tv : Val),
        splitDunder fieldName = [a, b] →
        SA.orm_operator_transformer b value = .ok (op, tv) →
        a ≠ cs.searchFieldName →
        SA.apply_scalar cs q fieldName value =
          .ok { q with clauses := q.clauses ++
            [.pred ⟨cs.modelName, a, op, tv⟩] })
    ∧ (∀ (cs : SA.Constants) (q : SA.Query) (fieldName : Str) (value : Val),
        containsDunder fieldName = false →
        fieldName ≠ cs.searchFieldName →
        SA.apply_scalar cs q fieldName value =
          .ok { q with clauses := q.clauses ++
            [.pred ⟨cs.modelName, fieldName, "__eq__".data, value⟩] })
    ∧ (∀ (searchF : Str) (searchM : Option (List Str)) (fieldName : Str)
        (value : Val) (a b : Str) (crit : Option (List (Str × Val))),
        splitDunder fieldName = [a, b] →
        Beanie.odm_operator_transformer b value = .ok crit →
        Beanie.filter_condition searchF searchM fieldName value =
          .ok [(a, crit)]) := by
  refine ⟨splitDunder_pair, ?_, ?_, ?_⟩
  · intro cs q fieldName value a b op tv hsplit htrans ha
    have hcd : containsDunder fieldName = true := by
      rw [containsDunder, (splitDunder_pair fieldName a b hsplit).1]
      exact containsSub_dunder_append a b
    have hsearch : ¬ (a = cs.searchFieldName ∧
        cs.searchModelFields ≠ Option.none) := fun hp => ha hp.1
    simp only [SA.apply_scalar, hcd, if_true, hsplit, htrans, bind_ok_eq,
      pure_bind_eq, if_neg hsearch]
    rfl
  · intro cs q fieldName value hcd hsearch
    have hs : ¬ (fieldName = cs.searchFieldName ∧
        cs.searchModelFields ≠ Option.none) := fun hp => hsearch hp.1
    simp only [SA.apply_scalar, hcd, Bool.false_eq_true, if_false,
      bind_ok_eq, pure_bind_eq, if_neg hs]
    rfl
  · intro searchF searchM fieldName value a b crit hsplit htrans
    have hcd : containsDunder fieldName = true := by
      rw [containsDunder, (splitDunder_pair fieldName a b hsplit).1]
      exact containsSub_dunder_append a b
    simp only [Beanie.filter_condition, hcd, if_true, hsplit, htrans,
      bind_ok_eq, pure_bind_eq]

/-- Witness for `dunder_operator_split`: `age__gte = 21` compiles to a
`__ge__` predicate on `age`. -/
theorem dunder_operator_split_witness :
    splitDunder "age__gte".data = ["age".data, "gte".data]
    ∧ SA.orm_operator_transformer "gte".data (.int 21) =
      .ok ("__ge__".data, Val.int 21)
    ∧ "age".data ≠ "search".data
    ∧ SA.apply_scalar
        ⟨"User".data, [], [], "order_by".data, "search".data, Option.none⟩
        ⟨[], [], []⟩ "age__gte".data (.int 21) =
      .ok ⟨[], [SA.Clause.pred
        ⟨"User".data, "age".data, "__ge__".data, Val.int 21⟩], []⟩ :=
  ⟨by decide, rfl, by decide,
   dunder_operator_split.2.1
     ⟨"User".data, [], [], "order_by".data, "search".data, Option.none⟩
     ⟨[], [], []⟩ "age__gte".data (.int 21) "age".data "gte".data
     "__ge__".data (Val.int 21) (by decide) rfl (by decide)⟩

theorem find?_name_not_mem {α : Type} (l : List (Str × α)) (k : Str)
    (h : k ∉ l.map Prod.fst) : l.find? (fun p => p.1 = k) = Option.none := by
  induction l with
  | nil => rfl
  | cons p rest ih =>
    simp only [List.map_cons, List.mem_cons, not_or] at h
    simp only [List.find?]
    rw [show (decide (p.1 = k)) = false from
      decide_eq_false (fun he => h.1 he.symm)]
    exact ih h.2

theorem sa_join_relationships_nil (rels : List SA.Rel) (q : SA.Query) :
    SA.join_relationships rels [] q = q := by
  induction rels generalizing q with
  | nil => rfl
  | cons r rest ih =>
    show List.foldl _ q (r :: rest) = q
    rw [List.foldl_cons]
    exact ih _

theorem sa_join_relationships_skip (rels : List SA.Rel)
    (A B : List (Str × SA.DVal)) (nn : Str) (q : SA.Query)
    (hA : nn ∉ A.map Prod.fst) (hB : nn ∉ B.map Prod.fst) :
    SA.join_relationships rels (A ++ (nn, SA.DVal.dict []) :: B) q =
    SA.join_relationships rels (A ++ B) q := by
  induction rels generalizing q with
  | nil => rfl
  | cons r rest ih =>
    show List.foldl _ q (r :: rest) = List.foldl _ q (r :: rest)
    rw [List.foldl_cons, List.foldl_cons]
    have hstep : (match (A ++ (nn, SA.DVal.dict []) :: B).find?
          (fun p => p.1 = r.key) with
        | some p =>
          if SA.any_field_not_none p.2 then
            match r.secondary with
            | some sec =>
              { q with joins := q.joins ++ [(sec, r.primaryjoin),
                                            (r.relClass, r.secondaryjoin)] }
            | Option.none =>
              { q with joins := q.joins ++ [(r.relClass, r.primaryjoin)] }
          else q
        | Option.none => q) =
        (match (A ++ B).find? (fun p => p.1 = r.key) with
        | some p =>
          if SA.any_field_not_none p.2 then
            match r.secondary with
            | some sec =>
              { q with joins := q.joins ++ [(sec, r.primaryjoin),
                                            (r.relClass, r.secondaryjoin)] }
            | Option.none =>
              { q with joins := q.joins ++ [(r.relClass, r.primaryjoin)] }
          else q
        | Option.none => q) := by
      by_cases hk : r.key = nn
      · rw [List.find?_append, List.find?_append]
        rw [find?_name_not_mem A r.key (hk ▸ hA),
            find?_name_not_mem B r.key (hk ▸ hB)]
        simp only [Option.none_or]
        rw [show ((nn, SA.DVal.dict []) :: B).find? (fun p => p.1 = r.key) =
            some (nn, SA.DVal.dict []) from by
          simp [List.find?, hk.symm]]
        rfl
      · rw [List.find?_append, List.find?_append]
        rw [show ((nn, SA.DVal.dict []) :: B).find? (fun p => p.1 = r.key) =
            B.find? (fun p => p.1 = r.key) from by
          simp only [List.find?]
          rw [show (decide ((nn, SA.DVal.dict []).1 = r.key)) = false from
            decide_eq_false (fun he => hk he.symm)]]
    exact hstep ▸ ih _

theorem sa_sub_filter_empty (sub : SA.SubFilter) (q : SA.Query)
    (h : model_dump true false true sub.fields = []) :
    SA.sub_filter sub q = .ok q := by
  simp only [SA.sub_filter, filtering_fields, h, List.filter_nil,
    List.map_nil, sa_join_relationships_nil]
  rfl

theorem sa_names_pfe (ord : Str) (l : SA.PFields) (k : Str)
    (h : k ∉ l.map Prod.fst) :
    k ∉ (SA.pFilteringEntries ord l).map Prod.fst := by
  intro hm
  have h1 : List.Sublist ((SA.pFilteringEntries ord l).map Prod.fst)
      (l.map Prod.fst) :=
    List.Sublist.map Prod.fst (List.filter_sublist l)
  exact h (h1.subset hm)

theorem sa_map_fst_dumped (l : SA.PFields) :
    (l.map (fun p => (p.1, SA.dumpPVal p.2.value))).map Prod.fst =
      l.map Prod.fst := by
  simp [List.map_map, Function.comp]

/-- C5: a nested sub-filter whose dump (`exclude_none=True,
exclude_unset=True`) is empty contributes no predicate and no join: the
compiled query equals the one produced with the nested field left
untouched (unset), for the SQLAlchemy and the MongoEngine backends. -/
theorem nested_empty_filter_skip :
    (∀ (cs : SA.Constants) (pre post : SA.PFields) (nn : Str)
        (sub : SA.SubFilter) (dflt d0 : SA.PVal) (q : SA.Query),
      model_dump true false true sub.fields = [] →
      nn ∉ (pre ++ post).map Prod.fst →
      nn ≠ cs.ordName →
      SA.parent_filter cs
        (pre ++ (nn, ⟨SA.PVal.nested sub, dflt, true⟩) :: post) q =
      SA.parent_filter cs (pre ++ (nn, ⟨d0, d0, false⟩) :: post) q)
    ∧ (∀ (cs : Mongo.Constants) (pre post : Mongo.PFields) (nn : Str)
        (sub : Mongo.SubFilter) (dflt d0 : Mongo.PVal) (q : List Mongo.Step),
      model_dump true false true sub.fields = [] →
      nn ≠ cs.ordName →
      Mongo.parent_filter cs
        (pre ++ (nn, ⟨Mongo.PVal.nested sub, dflt, true⟩) :: post) q =
      Mongo.parent_filter cs (pre ++ (nn, ⟨d0, d0, false⟩) :: post) q) := by
  constructor
  · intro cs pre post nn sub dflt d0 q hdump hnames hord
    have hpre : nn ∉ pre.map Prod.fst := fun hm => hnames (by
      rw [List.map_append]
      exact List.mem_append.mpr (Or.inl hm))
    have hpost : nn ∉ post.map Prod.fst := fun hm => hnames (by
      rw [List.map_append]
      exact List.mem_append.mpr (Or.inr hm))
    have hent1 : SA.pFilteringEntries cs.ordName
        (pre ++ (nn, ⟨SA.PVal.nested sub, dflt, true⟩) :: post) =
        SA.pFilteringEntries cs.ordName pre ++
          (nn, ⟨SA.PVal.nested sub, dflt, true⟩) ::
          SA.pFilteringEntries cs.ordName post := by
      simp [SA.pFilteringEntries, List.filter_append, List.filter_cons, hord]
    have hent2 : SA.pFilteringEntries cs.ordName
        (pre ++ (nn, ⟨d0, d0, false⟩) :: post) =
        SA.pFilteringEntries cs.ordName pre ++
          SA.pFilteringEntries cs.ordName post := by
      simp [SA.pFilteringEntries, List.filter_append, List.filter_cons]
    have hA : nn ∉ ((SA.pFilteringEntries cs.ordName pre).map
        (fun p => (p.1, SA.dumpPVal p.2.value))).map Prod.fst := by
      rw [sa_map_fst_dumped]
      exact sa_names_pfe cs.ordName pre nn hpre
    have hB : nn ∉ ((SA.pFilteringEntries cs.ordName post).map
        (fun p => (p.1, SA.dumpPVal p.2.value))).map Prod.fst := by
      rw [sa_map_fst_dumped]
      exact sa_names_pfe cs.ordName post nn hpost
    simp only [SA.parent_filter]
    rw [hent1, hent2]
    simp only [List.map_append, List.map_cons]
    rw [show SA.dumpPVal (SA.PVal.nested sub) = SA.DVal.dict [] from by
      simp [SA.dumpPVal, hdump]]
    rw [sa_join_relationships_skip cs.rels _ _ nn q hA hB]
    simp only [List.foldlM_append, List.foldlM_cons]
    refine congrArg (fun g => _ >>= g) (funext fun b => ?_)
    show (SA.sub_filter sub b >>= _) = _
    rw [sa_sub_filter_empty sub b hdump]
    rfl
  · intro cs pre post nn sub dflt d0 q hdump hord
    have hent1 : Mongo.pFilteringEntries cs.ordName
        (pre ++ (nn, ⟨Mongo.PVal.nested sub, dflt, true⟩) :: post) =
        Mongo.pFilteringEntries cs.ordName pre ++
          (nn, ⟨Mongo.PVal.nested sub, dflt, true⟩) ::
          Mongo.pFilteringEntries cs.ordName post := by
      simp [Mongo.pFilteringEntries, List.filter_append, List.filter_cons,
        hord]
    have hent2 : Mongo.pFilteringEntries cs.ordName
        (pre ++ (nn, ⟨d0, d0, false⟩) :: post) =
        Mongo.pFilteringEntries cs.ordName pre ++
          Mongo.pFilteringEntries cs.ordName post := by
      simp [Mongo.pFilteringEntries, List.filter_append, List.filter_cons]
    simp only [Mongo.parent_filter]
    rw [hent1, hent2, List.foldl_append, List.foldl_append, List.foldl_cons]
    simp only [hdump, List.isEmpty_nil, if_true]

/-- Witness for `nested_empty_filter_skip`: a parent `UserFilter` with an
`address` sub-filter whose only field is unset compiles to the same query
as one with the `address` field left untouched. -/
theorem nested_empty_filter_skip_witness :
    model_dump true false true
      ([("city".data, (⟨Val.none, Val.none, false⟩ : Entry Val))] : Fields)
      = [] ∧
    ("address".data ∉ (([] ++ []: SA.PFields)).map Prod.fst) ∧
    "address".data ≠ "order_by".data ∧
    SA.parent_filter
      ⟨"User".data, ["age".data],
        [⟨"address".data, "Address".data, Option.none,
          "join1".data, "join2".data⟩],
        "order_by".data, "search".data, Option.none⟩
      ([] ++ ("address".data,
        ⟨SA.PVal.nested ⟨⟨"Address".data, ["city".data], [], "order_by".data,
            "search".data, Option.none⟩,
          [("city".data, ⟨Val.none, Val.none, false⟩)]⟩,
          SA.PVal.scalar Val.none, true⟩) :: []) ⟨[], [], []⟩ =
    SA.parent_filter
      ⟨"User".data, ["age".data],
        [⟨"address".data, "Address".data, Option.none,
          "join1".data, "join2".data⟩],
        "order_by".data, "search".data, Option.none⟩
      ([] ++ ("address".data,
        ⟨SA.PVal.scalar Val.none, SA.PVal.scalar Val.none, false⟩) :: [])
      ⟨[], [], []⟩ :=
  ⟨rfl, by decide, by decide,
   nested_empty_filter_skip.1
     ⟨"User".data, ["age".data],
       [⟨"address".data, "Address".data, Option.none,
         "join1".data, "join2".data⟩],
       "order_by".data, "search".data, Option.none⟩
     [] [] "address".data
     ⟨⟨"Address".data, ["city".data], [], "order_by".data,
        "search".data, Option.none⟩,
       [("city".data, ⟨Val.none, Val.none, false⟩)]⟩
     (SA.PVal.scalar Val.none) (SA.PVal.scalar Val.none) ⟨[], [], []⟩
     rfl (by decide) (by decide)⟩
